/-
Verification of the Candidate Curation Engine of the moodboard app.

Shallow embedding of the client page component (the sole owner of the
session state): the token scoring pipeline (tokenize / posBias /
domainBias / scoreTokensFrom / preseedColorHintsFromUserText /
topKeywords / refineQueryWith), the queue and slot-filling machinery
(fetchImages / fillSlots), the user actions (handleAccept /
handleReject) and the optimistic-fetch-plus-enrichment orchestrator
(analyzePoemAndSearch).

Modelling conventions:
- JavaScript numbers are modelled as exact rationals (the spec allows
  bit-level deviation: only the final ranking is observable).
- A JS object used as a string-keyed score map is an association list
  in key insertion order, matching Object.entries enumeration order.
- The stable Array.prototype.sort with comparator (a, b) => b[1] - a[1]
  is modelled by a stable descending insertion sort.
- React state cells and refs become fields of an explicit Session
  value; each event handler is a function from the session (plus the
  outcomes of the network calls it performs) to the next session.
  Values a handler reads from its render closure are taken from the
  session at handler entry, matching the source's closure semantics.
- Character classes \p{L} and \p{N} are modelled over the ASCII range
  (all strings appearing in the claims are ASCII).
-/
import Mathlib

namespace Moodboard

/-- A candidate image descriptor, as the `Item` type of the source. -/
structure Item where
  id : String
  title : String
  thumb : String
  full : String
  creator : String
  creator_url : Option String := none
  license : String
  license_version : Option String := none
  source : Option String := none
deriving DecidableEq, Repr

/-- `SLOT_COUNT` from the source. -/
def SLOT_COUNT : Nat := 3

/-- `COLOR_WORDS` lexicon (a JS Set, modelled as its element list). -/
def COLOR_WORDS : List String :=
  ["black","white","gray","grey","charcoal","silver","gold","golden",
   "blue","navy","indigo","teal","cyan","turquoise",
   "red","crimson","scarlet","maroon",
   "green","emerald","olive","sage",
   "yellow","amber","ochre","ocher","mustard",
   "purple","violet","magenta","lilac",
   "orange","rust","copper","bronze",
   "brown","beige","tan","sepia",
   "pink","peach","rose"]

/-- `MOOD_WORDS` lexicon. -/
def MOOD_WORDS : List String :=
  ["lonely","solitary","melancholy","wistful","moody","somber","brooding",
   "serene","calm","peaceful","tender","nostalgic","yearning","eerie","ominous"]

/-- `PHOTO_COMPOSITION` lexicon. -/
def PHOTO_COMPOSITION : List String :=
  ["silhouette","portrait","landscape","wide","aerial","macro","minimalist",
   "grainy","film","bokeh","long-exposure","lowlight","low-light",
   "horizon","skyline","shore","cliff","alley","street","night","dawn","dusk",
   "rain","fog","mist","snow","storm","neon","reflections"]

/-- `STOP` stopword set. -/
def STOP : List String :=
  ["the","a","an","and","or","of","in","on","at","to","for","with","from","by","into","over",
   "is","are","was","were","be","been","being","it","its","that","this","these","those","as",
   "but","if","then","than","so","such","very","not","no","off","out","up","down","near","far",
   "your","my","our","their","his","her","they","them","you","we","i"]

/-- One character of the replacement `[^\p{L}\p{N}\s-]` → space (letter and
digit classes over the ASCII range). -/
def normChar (c : Char) : Char :=
  if c.isAlpha || c.isDigit || c.isWhitespace || c = '-' then c else ' '

/-- `tokenize`: lowercase, replace characters outside letters / digits /
whitespace / hyphen by spaces, split on whitespace, drop empty tokens. -/
def tokenize (text : String) : List String :=
  (((text.toLower).map normChar).split (fun c => c.isWhitespace)).filter (fun w => w ≠ "")

/-- `posBias`: morphological multiplier.  The regex tests of the source are
suffix tests; the alternation matches iff the word ends with one of the
branches. -/
def posBias (w : String) : ℚ :=
  if w.endsWith "ful" || w.endsWith "less" || w.endsWith "ous" || w.endsWith "ive"
      || w.endsWith "ish" || w.endsWith "y" || w.endsWith "ly" then 12/10
  else if w.endsWith "tion" || w.endsWith "ment" || w.endsWith "ness"
      || w.endsWith "scape" || w.endsWith "graphy" then 115/100
  else if w.contains '-' then 11/10
  else if 7 ≤ w.length then 105/100
  else 1

/-- `domainBias`: lexicon multipliers, composed multiplicatively. -/
def domainBias (w : String) : ℚ :=
  (if COLOR_WORDS.contains w then 125/100 else 1)
    * (if MOOD_WORDS.contains w then 12/10 else 1)
    * (if PHOTO_COMPOSITION.contains w then 115/100 else 1)

/-- The score map `Record<string, number>`, in key insertion order. -/
abbrev ScoreTable := List (String × ℚ)

/-- `scores[w] = (scores[w] ?? 0) + inc`: update the entry in place if the
key exists, otherwise append the new key (JS objects keep string-key
insertion order). -/
def bump (sc : ScoreTable) (w : String) (inc : ℚ) : ScoreTable :=
  if sc.any (fun p => p.1 == w) then
    sc.map (fun p => if p.1 == w then (p.1, p.2 + inc) else p)
  else
    sc ++ [(w, inc)]

/-- `scoreTokensFrom`: score every token of `text` that is neither a stopword
nor shorter than 3 characters, with weight × posBias × domainBias. -/
def scoreTokensFrom (text : String) (weight : ℚ) (sc : ScoreTable) : ScoreTable :=
  (tokenize text).foldl
    (fun sc w =>
      if STOP.contains w || w.length < 3 then sc
      else bump sc w (weight * posBias w * domainBias w))
    sc

/-- `preseedColorHintsFromUserText`: +0.6 for every color-word occurrence in
the user text. -/
def preseedColorHintsFromUserText (sc : ScoreTable) (text : String) : ScoreTable :=
  (tokenize text).foldl
    (fun sc w => if COLOR_WORDS.contains w then bump sc w (6/10) else sc)
    sc

/-- The ultra-naive stemming `w.replace(/(s|es|ed|ing|ly)$/, "")`: the regex
matches the leftmost occurrence, i.e. the longest of the suffixes present. -/
def rootOf (w : String) : String :=
  if w.endsWith "ing" then w.dropRight 3
  else if w.endsWith "es" then w.dropRight 2
  else if w.endsWith "ed" then w.dropRight 2
  else if w.endsWith "ly" then w.dropRight 2
  else if w.endsWith "s" then w.dropRight 1
  else w

/-- One insertion step of a stable descending sort by score: the new entry
goes after every earlier entry with score ≥ its own. -/
def insertByScore (a : String × ℚ) : ScoreTable → ScoreTable
  | [] => [a]
  | b :: t => if b.2 < a.2 then a :: b :: t else b :: insertByScore a t

/-- `Object.entries(scores).sort((a, b) => b[1] - a[1])`: a stable descending
sort by score (Array.prototype.sort is stable), entries enumerated in key
insertion order. -/
def sortByScoreDesc (sc : ScoreTable) : ScoreTable :=
  sc.foldl (fun acc a => insertByScore a acc) []

/-- The collection loop of `topKeywords`: skip an entry whose root was
already picked, otherwise push it and stop once `max` tokens are collected
(the break happens after the push, as in the source). -/
def pickLoop (max : Nat) : ScoreTable → List String → List String → List String
  | [], picked, _ => picked
  | (w, _) :: rest, picked, seenRoots =>
    if seenRoots.contains (rootOf w) then pickLoop max rest picked seenRoots
    else
      let picked' := picked ++ [w]
      if max ≤ picked'.length then picked'
      else pickLoop max rest picked' (rootOf w :: seenRoots)

/-- `topKeywords`: descending-by-score entries, de-duplicated by naive root,
truncated at `max`. -/
def topKeywords (sc : ScoreTable) (max : Nat) : List String :=
  pickLoop max (sortByScoreDesc sc) [] []

/-- The session state: every `useState` cell plus the two refs of the page
component (`seenIdsRef` mirrors `seenIds` and is kept in sync by the code,
so one field stands for both). -/
structure Session where
  userText : String
  activeQuery : String
  itemsQueue : List Item
  visible : List Item
  kept : List Item
  seenIds : List String
  page : Nat
  loading : Bool
  error : Option String
  fetching : Bool
  currentRequest : Nat
deriving DecidableEq, Repr

/-- Ids of a list of items. -/
def itemIds (l : List Item) : List String := l.map (fun it => it.id)

/-- `Set.add`: insert an id if not already present. -/
def insertId (l : List String) (a : String) : List String :=
  if l.contains a then l else a :: l

/-- Outcome of one `/api/openverse` fetch as observed by `fetchImages`:
either the thrown error message (non-OK status or network failure) or the
parsed item list `j.items ?? []`. -/
inductive FetchResult where
  | failure (msg : String)
  | success (items : List Item)
deriving DecidableEq, Repr

/-- `fetchImages(query, pageNum, opts)`: guarded by `fetchingRef`; on
success filters the response against the seen set, dedups against the
current queue, replaces or appends, and returns the count of fresh
(not-yet-seen) items; on failure records the error message.  `loading` is
set and cleared within the call; `query` and `pageNum` only shape the URL. -/
def fetchImages (s : Session) (_query : String) (_pageNum : Nat)
    (append : Bool) (res : FetchResult) : Session × Nat :=
  if s.fetching then (s, 0)
  else
    match res with
    | .failure msg =>
        ({ s with loading := false, error := some msg, fetching := false }, 0)
    | .success items =>
        let fresh := items.filter (fun it => !(s.seenIds.contains it.id))
        let existing := itemIds s.itemsQueue
        let incoming := fresh.filter (fun it => !(existing.contains it.id))
        ({ s with
            loading := false, error := none, fetching := false,
            itemsQueue := if append then s.itemsQueue ++ incoming else incoming },
         fresh.length)

/-- The while loop of `fillSlots`: pop the queue head while the window is
under capacity, skipping candidates already on screen or already seen;
returns the remaining queue, the new window and the newly shown ids. -/
def fillLoop (seen : List String) :
    List Item → List Item → List String → List String →
    List Item × List Item × List String
  | [], visible, _, shown => ([], visible, shown)
  | c :: rest, visible, onScreen, shown =>
    if SLOT_COUNT ≤ visible.length then (c :: rest, visible, shown)
    else if onScreen.contains c.id || seen.contains c.id then
      fillLoop seen rest visible onScreen shown
    else
      fillLoop seen rest (visible ++ [c]) (c.id :: onScreen) (shown ++ [c.id])

/-- The body of `fillSlots` applied to explicit queue / window / seen-set
inputs; `none` models the early returns that commit no state update. -/
def fillSlotsStep (queue visible : List Item) (seen : List String) :
    Option (List Item × List Item × List String) :=
  if SLOT_COUNT ≤ visible.length then none
  else if queue.isEmpty then none
  else
    let r := fillLoop seen queue visible (itemIds visible) []
    if r.2.2.isEmpty then none
    else some r

/-- `fillSlots`: top up the visible window from the queue and mark the newly
shown ids as seen; a no-op call commits nothing. -/
def fillSlots (s : Session) : Session :=
  match fillSlotsStep s.itemsQueue s.visible s.seenIds with
  | none => s
  | some (q, v, shown) =>
      { s with itemsQueue := q, visible := v,
               seenIds := shown.foldl insertId s.seenIds }

/-- `visible[idx]` for a JS number index: negative or out-of-range indices
yield `undefined`. -/
def getSlot (l : List Item) (idx : ℤ) : Option Item :=
  if idx < 0 then none else l[idx.toNat]?

/-- `refineQueryWith` builds its score table in this order: preseed colors
from the raw user text, score the active query at weight 1.0, the five most
recent kept titles at 1.4, the accepted item's title at 1.8. -/
def refineScores (s : Session) (item : Item) : ScoreTable :=
  let sc : ScoreTable := []
  let sc := preseedColorHintsFromUserText sc s.userText
  let sc := scoreTokensFrom s.activeQuery 1 sc
  let sc := (s.kept.take 5).foldl (fun sc k => scoreTokensFrom k.title (14/10) sc) sc
  scoreTokensFrom item.title (18/10) sc

/-- `refineQueryWith(item)`: join the top keywords with spaces; an empty
result falls back to the current active query (`refined || activeQuery`). -/
def refineQueryWith (s : Session) (item : Item) : String :=
  let keywords := topKeywords (refineScores s item) 12
  let refined := String.intercalate " " keywords
  if refined = "" then s.activeQuery else refined

/-- `handleAccept(idx)`: move the slot item to the head of `kept`, mark it
seen, close the slot, refine the hidden query (from the values captured at
handler entry), reset paging, clear the queue, and issue a replace-mode
fetch for the refined query. -/
def handleAccept (s : Session) (idx : ℤ) (res : FetchResult) : Session :=
  match getSlot s.visible idx with
  | none => s
  | some item =>
    let s1 := { s with
        kept := item :: s.kept,
        seenIds := insertId s.seenIds item.id,
        visible := s.visible.eraseIdx idx.toNat }
    let refined := refineQueryWith s item
    let s2 := { s1 with activeQuery := refined, page := 1, itemsQueue := [] }
    (fetchImages s2 refined 1 false res).1

/-- `handleReject(idx)`: mark the slot item seen and close the slot.  The
embedded `fillSlots()` call runs against the queue and window captured at
handler entry and only when that queue is empty, so it commits nothing.
When the captured queue is low and no load is in progress, issue an
append-mode fetch at the next page against the unchanged active query. -/
def handleReject (s : Session) (idx : ℤ) (res : FetchResult) : Session :=
  match getSlot s.visible idx with
  | none => s
  | some item =>
    let s1 := { s with
        seenIds := insertId s.seenIds item.id,
        visible := s.visible.eraseIdx idx.toNat }
    let s2 :=
      if s.itemsQueue.isEmpty then
        match fillSlotsStep s.itemsQueue s.visible s1.seenIds with
        | none => s1
        | some (q, v, shown) =>
            { s1 with itemsQueue := q, visible := v,
                      seenIds := shown.foldl insertId s1.seenIds }
      else s1
    if s.itemsQueue.length < 3 && !s.loading then
      let s3 := { s2 with page := s.page + 1 }
      (fetchImages s3 s.activeQuery (s.page + 1) true res).1
    else s2

/-- Outcome of the `/api/analyze` call as observed by the orchestrator:
the fetch promise rejected (abort on timeout, or network error), the
response was non-OK, the OK body failed JSON parsing (the message of the
thrown parse error), or a parsed body with its optional `search_query`. -/
inductive AnalyzeOutcome where
  | networkFail
  | notOk
  | badJson (msg : String)
  | parsed (search_query : Option String)
deriving DecidableEq, Repr

/-- Phase 1 of `analyzePoemAndSearch`: clear the error, raise loading, bump
the request generation and capture it, reset paging / queue / window, and
run the optimistic fetch.  Returns the state, the captured generation and
the optimistic fresh count. -/
def analyzeStart (s : Session) (poem : String) (res1 : FetchResult) :
    Session × Nat × Nat :=
  let g := s.currentRequest + 1
  let s0 := { s with
      error := none, loading := true, currentRequest := g,
      page := 1, itemsQueue := [], visible := [] }
  let r := fetchImages s0 poem 1 false res1
  (r.1, g, r.2)

/-- Phase 2 of `analyzePoemAndSearch`, from the arrival of the enrichment
outcome: the staleness guard discards the result wholesale when a newer
request started; otherwise a missing / non-OK response only clears loading,
a JSON parse failure lands in the outer catch (setting the error message),
and a usable refined query triggers the invisible refined fetch with its
second staleness guard and the empty-result hint. -/
def analyzeCont (s : Session) (myReq : Nat) (optimisticGot : Nat)
    (ai : AnalyzeOutcome) (res2 : FetchResult) : Session :=
  if myReq ≠ s.currentRequest then s
  else
    match ai with
    | .networkFail => { s with loading := false }
    | .notOk => { s with loading := false }
    | .badJson msg => { s with error := some msg, loading := false }
    | .parsed sq =>
      let refined := (sq.getD "").trim
      if refined ≠ "" then
        let r := fetchImages s refined 1 false res2
        let s' := r.1
        if myReq ≠ s'.currentRequest then s'
        else if 0 < r.2 then { s' with activeQuery := refined, loading := false }
        else if optimisticGot = 0 then
          { s' with error := some "No matches found. Try broader words.", loading := false }
        else { s' with loading := false }
      else { s with loading := false }

/-- `analyzePoemAndSearch(poem)` run to completion with no interleaved
cycle: phase 1 followed by phase 2 under the generation it captured. -/
def analyzePoemAndSearch (s : Session) (poem : String) (res1 : FetchResult)
    (ai : AnalyzeOutcome) (res2 : FetchResult) : Session :=
  let r := analyzeStart s poem res1
  analyzeCont r.1 r.2.1 r.2.2 ai res2

/-- The initial session: the seed text in both the canvas and the hidden
query, everything else empty. -/
def initialSession : Session :=
  { userText := "lonely, dark, single figure, horizon"
    activeQuery := "lonely, dark, single figure, horizon"
    itemsQueue := [], visible := [], kept := [], seenIds := []
    page := 1, loading := false, error := none
    fetching := false, currentRequest := 0 }

/-- One user-or-network-driven operation on the session. -/
inductive Op where
  | fetch (query : String) (pageNum : Nat) (append : Bool) (res : FetchResult)
  | accept (idx : ℤ) (res : FetchResult)
  | reject (idx : ℤ) (res : FetchResult)
  | fill
  | analyze (poem : String) (res1 : FetchResult) (ai : AnalyzeOutcome) (res2 : FetchResult)
deriving DecidableEq, Repr

/-- Apply one completed operation. -/
def step (s : Session) : Op → Session
  | .fetch q p ap res => (fetchImages s q p ap res).1
  | .accept idx res => handleAccept s idx res
  | .reject idx res => handleReject s idx res
  | .fill => fillSlots s
  | .analyze poem r1 ai r2 => analyzePoemAndSearch s poem r1 ai r2

/-- Run a sequence of operations from the initial session. -/
def run (ops : List Op) : Session := ops.foldl step initialSession

/-- Well-formedness of a provider response, from the spec's provider
boundary: ids are unique within one result set. -/
def resWF : FetchResult → Prop
  | .failure _ => True
  | .success items => (itemIds items).Nodup

instance : DecidablePred resWF := fun r => by
  cases r <;> simp only [resWF] <;> infer_instance

/-- Well-formedness of an operation: every provider response it carries is
well-formed. -/
def opWF : Op → Prop
  | .fetch _ _ _ res => resWF res
  | .accept _ res => resWF res
  | .reject _ res => resWF res
  | .fill => True
  | .analyze _ r1 _ r2 => resWF r1 ∧ resWF r2

instance : DecidablePred opWF := fun op => by
  cases op <;> simp only [opWF] <;> infer_instance

/-- The entry stored for key `w` (JS: `scores[w]`, `undefined` when absent). -/
def getEntry (sc : ScoreTable) (w : String) : Option ℚ :=
  (sc.find? (fun p => p.1 == w)).map (fun p => p.2)

/-- The value read by `scores[w] ?? 0`. -/
def lookupScore (sc : ScoreTable) (w : String) : ℚ :=
  (getEntry sc w).getD 0

/-- The accepted item of spec scenario B. -/
def itemScenarioB : Item :=
  { id := "a", title := "Dark Horizon Silhouette", thumb := "", full := ""
    creator := "", license := "" }

/-- An arbitrary concrete item used by concrete-input theorems. -/
def itemX : Item :=
  { id := "x", title := "t", thumb := "", full := "", creator := "", license := "" }

/-- A session whose queue already holds `itemX`. -/
def sessionWithQueue : Session :=
  { initialSession with itemsQueue := [itemX] }

/-- A session whose generation counter has advanced to 2. -/
def staleSession : Session :=
  { initialSession with currentRequest := 2 }

/-- A concrete operation sequence: fetch two items, fill the window,
accept slot 0, reject slot 0. -/
def c1ops : List Op :=
  [Op.fetch "lonely" 1 false (FetchResult.success
     [{ id := "a", title := "A", thumb := "", full := "", creator := "", license := "" },
      { id := "b", title := "B", thumb := "", full := "", creator := "", license := "" }]),
   Op.fill,
   Op.accept 0 (FetchResult.success []),
   Op.reject 0 (FetchResult.failure "rate limited")]

/-! ### Basic lemmas about the small helpers -/

theorem mem_insertId {l : List String} {a b : String} :
    a ∈ insertId l b ↔ a = b ∨ a ∈ l := by
  unfold insertId
  split
  · next h =>
    simp only [List.elem_eq_mem, decide_eq_true_eq] at h
    constructor
    · exact Or.inr
    · rintro (rfl | h') <;> [exact h; exact h']
  · exact List.mem_cons

theorem mem_foldl_insertId (ids : List String) :
    ∀ (init : List String) (a : String),
      a ∈ ids.foldl insertId init ↔ a ∈ init ∨ a ∈ ids := by
  induction ids with
  | nil => simp
  | cons i is ih =>
    intro init a
    simp only [List.foldl_cons, ih, mem_insertId, List.mem_cons]
    tauto

theorem mem_itemIds {l : List Item} {a : String} :
    a ∈ itemIds l ↔ ∃ it ∈ l, it.id = a := by
  simp [itemIds]

theorem itemIds_append (l r : List Item) :
    itemIds (l ++ r) = itemIds l ++ itemIds r := by
  simp [itemIds]

theorem map_eraseIdx (f : α → β) :
    ∀ (l : List α) (n : Nat), (l.eraseIdx n).map f = (l.map f).eraseIdx n
  | [], _ => by simp
  | _ :: _, 0 => by simp
  | a :: t, n + 1 => by simp [map_eraseIdx f t n]

theorem not_mem_eraseIdx_of_nodup :
    ∀ (l : List α) (n : Nat) (a : α), l.Nodup → l[n]? = some a → a ∉ l.eraseIdx n := by
  intro l
  induction l with
  | nil => intro n a _ h; simp at h
  | cons b t ih =>
    intro n a hnd hget
    cases n with
    | zero =>
      simp only [List.getElem?_cons_zero, Option.some.injEq] at hget
      subst hget
      simpa using (List.nodup_cons.mp hnd).1
    | succ n =>
      simp only [List.getElem?_cons_succ] at hget
      have ha : a ∈ t := List.getElem?_mem hget
      have hnd' := List.nodup_cons.mp hnd
      simp only [List.eraseIdx_cons_succ, List.mem_cons]
      rintro (rfl | hmem)
      · exact hnd'.1 ha
      · exact ih n a hnd'.2 hget hmem

/-! ### `fetchImages` projections -/

theorem fetchImages_visible (s : Session) (q : String) (p : Nat) (ap : Bool)
    (res : FetchResult) : ((fetchImages s q p ap res).1).visible = s.visible := by
  unfold fetchImages; split
  · rfl
  · cases res <;> rfl

theorem fetchImages_kept (s : Session) (q : String) (p : Nat) (ap : Bool)
    (res : FetchResult) : ((fetchImages s q p ap res).1).kept = s.kept := by
  unfold fetchImages; split
  · rfl
  · cases res <;> rfl

theorem fetchImages_seenIds (s : Session) (q : String) (p : Nat) (ap : Bool)
    (res : FetchResult) : ((fetchImages s q p ap res).1).seenIds = s.seenIds := by
  unfold fetchImages; split
  · rfl
  · cases res <;> rfl

theorem fetchImages_currentRequest (s : Session) (q : String) (p : Nat) (ap : Bool)
    (res : FetchResult) :
    ((fetchImages s q p ap res).1).currentRequest = s.currentRequest := by
  unfold fetchImages; split
  · rfl
  · cases res <;> rfl

/-! ### The `fillLoop` characterization

`fillLoop` appends to the window a block `p` of items taken from the
processed prefix of the queue, each neither seen nor already on screen,
with pairwise-distinct ids; the returned queue is the unprocessed suffix. -/

theorem fillLoop_spec (seen : List String) :
    ∀ (queue visible : List Item) (onScreen shown : List String),
    ∃ (p : List Item) (q₁ q' : List Item),
      fillLoop seen queue visible onScreen shown =
        (q', visible ++ p, shown ++ itemIds p) ∧
      queue = q₁ ++ q' ∧
      (∀ c ∈ p, c ∈ q₁) ∧
      (∀ c ∈ p, c.id ∉ seen ∧ c.id ∉ onScreen) ∧
      (itemIds p).Nodup := by
  intro queue
  induction queue with
  | nil =>
    intro visible onScreen shown
    exact ⟨[], [], [], by simp [fillLoop, itemIds], by simp, by simp, by simp, by simp [itemIds]⟩
  | cons c rest ih =>
    intro visible onScreen shown
    by_cases hfull : SLOT_COUNT ≤ visible.length
    · refine ⟨[], [], c :: rest, ?_, by simp, by simp, by simp, by simp [itemIds]⟩
      simp [fillLoop, hfull, itemIds]
    · by_cases hskip : c.id ∈ onScreen ∨ c.id ∈ seen
      · obtain ⟨p, q₁, q', heq, hq, hsub, hcond, hnd⟩ := ih visible onScreen shown
        refine ⟨p, c :: q₁, q', ?_, by simp [hq], ?_, hcond, hnd⟩
        · rw [← heq]; simp [fillLoop, hfull, hskip]
        · intro x hx; exact List.mem_cons_of_mem c (hsub x hx)
      · obtain ⟨p, q₁, q', heq, hq, hsub, hcond, hnd⟩ :=
          ih (visible ++ [c]) (c.id :: onScreen) (shown ++ [c.id])
        push_neg at hskip
        refine ⟨c :: p, c :: q₁, q', ?_, by simp [hq], ?_, ?_, ?_⟩
        · have hstep : fillLoop seen (c :: rest) visible onScreen shown =
              fillLoop seen rest (visible ++ [c]) (c.id :: onScreen) (shown ++ [c.id]) := by
            simp [fillLoop, hfull, hskip.1, hskip.2]
          rw [hstep, heq]
          simp [itemIds]
        · intro x hx
          rcases List.mem_cons.mp hx with rfl | hx'
          · exact List.mem_cons_self x q₁
          · exact List.mem_cons_of_mem c (hsub x hx')
        · intro x hx
          rcases List.mem_cons.mp hx with rfl | hx'
          · exact ⟨hskip.2, hskip.1⟩
          · have hx2 := hcond x hx'
            exact ⟨hx2.1, fun hm => hx2.2 (List.mem_cons_of_mem _ hm)⟩
        · have hne : c.id ∉ itemIds p := by
            rw [mem_itemIds]
            rintro ⟨it, hit, hid⟩
            exact (hcond it hit).2 (by rw [hid]; exact List.mem_cons_self _ _)
          exact List.nodup_cons.mpr ⟨hne, hnd⟩

theorem getSlot_mem {l : List Item} {idx : ℤ} {item : Item}
    (h : getSlot l idx = some item) : item ∈ l := by
  unfold getSlot at h
  split at h
  · exact absurd h (by simp)
  · exact List.getElem?_mem h

theorem fillSlotsStep_of_isEmpty {q v : List Item} {seen : List String}
    (hq : q.isEmpty = true) : fillSlotsStep q v seen = none := by
  unfold fillSlotsStep
  by_cases hf : SLOT_COUNT ≤ v.length
  · rw [if_pos hf]
  · rw [if_neg hf, if_pos hq]

theorem fillLoop_length (seen : List String) :
    ∀ (queue visible : List Item) (onScreen shown : List String),
      visible.length ≤ SLOT_COUNT →
      ((fillLoop seen queue visible onScreen shown).2.1).length ≤ SLOT_COUNT := by
  intro queue
  induction queue with
  | nil => intro visible onScreen shown h; simpa [fillLoop] using h
  | cons c rest ih =>
    intro visible onScreen shown h
    by_cases hfull : SLOT_COUNT ≤ visible.length
    · simpa [fillLoop, hfull] using h
    · by_cases hskip : c.id ∈ onScreen ∨ c.id ∈ seen
      · simpa [fillLoop, hfull, hskip] using ih visible onScreen shown h
      · have hlt : visible.length < SLOT_COUNT := Nat.lt_of_not_le hfull
        have hlen : (visible ++ [c]).length ≤ SLOT_COUNT := by
          simpa using Nat.succ_le_of_lt hlt
        push_neg at hskip
        simpa [fillLoop, hfull, hskip.1, hskip.2] using
          ih (visible ++ [c]) (c.id :: onScreen) (shown ++ [c.id]) hlen

/-- Either `fillSlots` commits nothing, or it moves a well-behaved block `p`
from the queue to the window and marks it seen. -/
theorem fillSlots_cases (s : Session) :
    fillSlots s = s ∨
    ∃ (p q₁ q' : List Item),
      s.itemsQueue = q₁ ++ q' ∧
      (∀ c ∈ p, c ∈ q₁) ∧
      (∀ c ∈ p, c.id ∉ s.seenIds ∧ c.id ∉ itemIds s.visible) ∧
      (itemIds p).Nodup ∧
      (s.visible ++ p).length ≤ SLOT_COUNT ∧
      fillSlots s = { s with itemsQueue := q',
                             visible := s.visible ++ p,
                             seenIds := (itemIds p).foldl insertId s.seenIds } := by
  by_cases hfull : SLOT_COUNT ≤ s.visible.length
  · left; simp [fillSlots, fillSlotsStep, hfull]
  · by_cases hemp : s.itemsQueue.isEmpty
    · left; simp [fillSlots, fillSlotsStep, hfull, hemp]
    · obtain ⟨p, q₁, q', heq, hq, hsub, hcond, hnd⟩ :=
        fillLoop_spec s.seenIds s.itemsQueue s.visible (itemIds s.visible) []
      rw [List.nil_append] at heq
      have hlen : (s.visible ++ p).length ≤ SLOT_COUNT := by
        have hb := fillLoop_length s.seenIds s.itemsQueue s.visible (itemIds s.visible) []
          (le_of_lt (Nat.lt_of_not_le hfull))
        rw [heq] at hb
        exact hb
      by_cases hpe : (itemIds p).isEmpty
      · left; simp [fillSlots, fillSlotsStep, hfull, hemp, heq, hpe]
      · right
        exact ⟨p, q₁, q', hq, hsub, hcond, hnd, hlen,
          by simp [fillSlots, fillSlotsStep, hfull, hemp, heq, hpe]⟩

/-- Either `handleAccept` is a no-op (empty slot), or it performs the full
move-to-kept / mark-seen / close-slot / refine / reset / fetch sequence. -/
theorem handleAccept_cases (s : Session) (idx : ℤ) (res : FetchResult) :
    handleAccept s idx res = s ∨
    ∃ item, getSlot s.visible idx = some item ∧
      handleAccept s idx res =
        (fetchImages
          { s with kept := item :: s.kept,
                   seenIds := insertId s.seenIds item.id,
                   visible := s.visible.eraseIdx idx.toNat,
                   activeQuery := refineQueryWith s item,
                   page := 1, itemsQueue := [] }
          (refineQueryWith s item) 1 false res).1 := by
  cases h : getSlot s.visible idx with
  | none => left; simp [handleAccept, h]
  | some item => right; exact ⟨item, rfl, by simp [handleAccept, h]⟩

/-- Either `handleReject` is a no-op (empty slot), or it marks the item seen
and closes the slot — followed, when the captured queue is low and nothing
is loading, by the proactive append-mode fetch at the next page. -/
theorem handleReject_cases (s : Session) (idx : ℤ) (res : FetchResult) :
    handleReject s idx res = s ∨
    ∃ item, getSlot s.visible idx = some item ∧
      (handleReject s idx res =
          { s with seenIds := insertId s.seenIds item.id,
                   visible := s.visible.eraseIdx idx.toNat } ∨
       handleReject s idx res =
        (fetchImages
          { s with seenIds := insertId s.seenIds item.id,
                   visible := s.visible.eraseIdx idx.toNat,
                   page := s.page + 1 }
          s.activeQuery (s.page + 1) true res).1) := by
  cases h : getSlot s.visible idx with
  | none => left; simp [handleReject, h]
  | some item =>
    right
    refine ⟨item, rfl, ?_⟩
    have hs2 :
        (if s.itemsQueue.isEmpty then
          match fillSlotsStep s.itemsQueue s.visible
              (insertId s.seenIds item.id) with
          | none =>
              { s with seenIds := insertId s.seenIds item.id,
                       visible := s.visible.eraseIdx idx.toNat }
          | some (q, v, shown) =>
              { s with seenIds := shown.foldl insertId (insertId s.seenIds item.id),
                       visible := v, itemsQueue := q }
        else
          { s with seenIds := insertId s.seenIds item.id,
                   visible := s.visible.eraseIdx idx.toNat }) =
        { s with seenIds := insertId s.seenIds item.id,
                 visible := s.visible.eraseIdx idx.toNat } := by
      by_cases hemp : s.itemsQueue.isEmpty
      · rw [if_pos hemp, fillSlotsStep_of_isEmpty hemp]
      · rw [if_neg hemp]
    by_cases hpre : (decide (s.itemsQueue.length < 3) && !s.loading) = true
    · right
      simp only [handleReject, h, hs2, hpre, if_true]
    · left
      simp only [handleReject, h, hs2]
      rw [if_neg hpre]

/-! ### Session invariants -/

/-- Core invariant (no assumption on provider responses): the window and
the kept list have pairwise-distinct ids, both are recorded in the seen
set, and they are mutually disjoint. -/
structure InvC (s : Session) : Prop where
  vnd : (itemIds s.visible).Nodup
  knd : (itemIds s.kept).Nodup
  vseen : ∀ a ∈ itemIds s.visible, a ∈ s.seenIds
  kseen : ∀ a ∈ itemIds s.kept, a ∈ s.seenIds
  vk : ∀ a ∈ itemIds s.visible, a ∉ itemIds s.kept

/-- Full invariant (queue included): additionally the queue has
pairwise-distinct ids and is disjoint from the seen set (hence from the
window and the kept list). -/
structure Inv (s : Session) extends InvC s : Prop where
  qnd : (itemIds s.itemsQueue).Nodup
  qseen : ∀ a ∈ itemIds s.itemsQueue, a ∉ s.seenIds

theorem invC_congr {s s' : Session}
    (hv : s'.visible = s.visible) (hk : s'.kept = s.kept)
    (hs : s'.seenIds = s.seenIds) (h : InvC s) : InvC s' := by
  refine ⟨?_, ?_, ?_, ?_, ?_⟩
  · simp only [hv]; exact h.vnd
  · simp only [hk]; exact h.knd
  · simp only [hv, hs]; exact h.vseen
  · simp only [hk, hs]; exact h.kseen
  · simp only [hv, hk]; exact h.vk

theorem inv_congr {s s' : Session}
    (hq : s'.itemsQueue = s.itemsQueue) (hv : s'.visible = s.visible)
    (hk : s'.kept = s.kept) (hs : s'.seenIds = s.seenIds) (h : Inv s) : Inv s' := by
  refine ⟨invC_congr hv hk hs h.toInvC, ?_, ?_⟩
  · simp only [hq]; exact h.qnd
  · simp only [hq, hs]; exact h.qseen

theorem initial_inv : Inv initialSession := by
  refine ⟨⟨?_, ?_, ?_, ?_, ?_⟩, ?_, ?_⟩ <;> simp [initialSession, itemIds]

/-! ### Invariant preservation, operation by operation -/

theorem invC_fetch (s : Session) (q : String) (p : Nat) (ap : Bool)
    (res : FetchResult) (h : InvC s) : InvC ((fetchImages s q p ap res).1) :=
  invC_congr (fetchImages_visible ..) (fetchImages_kept ..) (fetchImages_seenIds ..) h

theorem inv_fetch (s : Session) (q : String) (p : Nat) (ap : Bool)
    (res : FetchResult) (hwf : resWF res) (h : Inv s) :
    Inv ((fetchImages s q p ap res).1) := by
  unfold fetchImages
  split
  · exact h
  · cases res with
    | failure msg =>
      refine inv_congr ?_ ?_ ?_ ?_ h <;> rfl
    | success items =>
      simp only [resWF] at hwf
      dsimp only
      have hinc_mem : ∀ a ∈ itemIds ((items.filter
            (fun it => !(s.seenIds.contains it.id))).filter
            (fun it => !((itemIds s.itemsQueue).contains it.id))),
          a ∉ s.seenIds ∧ a ∉ itemIds s.itemsQueue := by
        intro a ha
        rw [mem_itemIds] at ha
        obtain ⟨it, hit, rfl⟩ := ha
        have h2 := List.mem_filter.mp hit
        have h1 := List.mem_filter.mp h2.1
        constructor
        · simpa using h1.2
        · simpa using h2.2
      have hinc_nd : (itemIds ((items.filter
            (fun it => !(s.seenIds.contains it.id))).filter
            (fun it => !((itemIds s.itemsQueue).contains it.id)))).Nodup := by
        refine hwf.sublist (List.Sublist.map _ ?_)
        exact (List.filter_sublist _).trans (List.filter_sublist _)
      refine ⟨?_, ?_, ?_⟩
      case refine_1 => refine invC_congr ?_ ?_ ?_ h.toInvC <;> rfl
      · by_cases hap : ap = true
        · simp only [hap, if_true, itemIds_append]
          rw [List.nodup_append]
          exact ⟨h.qnd, hinc_nd, fun a haq ha' => (hinc_mem a ha').2 haq⟩
        · simp only [Bool.not_eq_true] at hap
          simpa [hap] using hinc_nd
      · intro a ha
        by_cases hap : ap = true
        · simp only [hap, if_true, itemIds_append, List.mem_append] at ha
          rcases ha with ha | ha
          · exact h.qseen a ha
          · exact (hinc_mem a ha).1
        · simp only [Bool.not_eq_true] at hap
          simp only [hap, if_false] at ha
          exact (hinc_mem a ha).1

theorem invC_fillSlots (s : Session) (h : InvC s) : InvC (fillSlots s) := by
  rcases fillSlots_cases s with heq | ⟨p, q₁, q', _, _, hcond, hnd, _, heq⟩
  · rw [heq]; exact h
  · rw [heq]
    refine ⟨?_, ?_, ?_, ?_, ?_⟩
    · show (itemIds (s.visible ++ p)).Nodup
      rw [itemIds_append, List.nodup_append]
      refine ⟨h.vnd, hnd, fun a hav hap => ?_⟩
      rw [mem_itemIds] at hap
      obtain ⟨it, hit, rfl⟩ := hap
      exact (hcond it hit).2 hav
    · exact h.knd
    · show ∀ a ∈ itemIds (s.visible ++ p), a ∈ (itemIds p).foldl insertId s.seenIds
      intro a ha
      rw [itemIds_append, List.mem_append] at ha
      rw [mem_foldl_insertId]
      rcases ha with ha | ha
      · exact Or.inl (h.vseen a ha)
      · exact Or.inr ha
    · show ∀ a ∈ itemIds s.kept, a ∈ (itemIds p).foldl insertId s.seenIds
      intro a ha
      rw [mem_foldl_insertId]
      exact Or.inl (h.kseen a ha)
    · show ∀ a ∈ itemIds (s.visible ++ p), a ∉ itemIds s.kept
      intro a ha hak
      rw [itemIds_append, List.mem_append] at ha
      rcases ha with ha | ha
      · exact h.vk a ha hak
      · rw [mem_itemIds] at ha
        obtain ⟨it, hit, rfl⟩ := ha
        exact (hcond it hit).1 (h.kseen _ hak)

theorem inv_fillSlots (s : Session) (h : Inv s) : Inv (fillSlots s) := by
  rcases fillSlots_cases s with heq | ⟨p, q₁, q', hqsplit, hsub, hcond, hnd, _, heq⟩
  · rw [heq]; exact h
  · have hC : InvC (fillSlots s) := invC_fillSlots s h.toInvC
    rw [heq] at hC ⊢
    have hq_ids : itemIds s.itemsQueue = itemIds q₁ ++ itemIds q' := by
      rw [hqsplit, itemIds_append]
    refine ⟨hC, ?_, ?_⟩
    · show (itemIds q').Nodup
      refine h.qnd.sublist ?_
      rw [hq_ids]
      exact List.sublist_append_right _ _
    · show ∀ a ∈ itemIds q', a ∉ (itemIds p).foldl insertId s.seenIds
      intro a ha hmem
      have haq : a ∈ itemIds s.itemsQueue := by
        rw [hq_ids]; exact List.mem_append_right _ ha
      rw [mem_foldl_insertId] at hmem
      rcases hmem with hmem | hmem
      · exact h.qseen a haq hmem
      · -- a is among the newly placed ids: contradicts queue-id distinctness
        rw [mem_itemIds] at hmem
        obtain ⟨it, hit, rfl⟩ := hmem
        have hit₁ : it.id ∈ itemIds q₁ := mem_itemIds.mpr ⟨it, hsub it hit, rfl⟩
        have hdisj := List.disjoint_of_nodup_append (hq_ids ▸ h.qnd)
        exact hdisj hit₁ ha

theorem getSlot_get {l : List Item} {idx : ℤ} {item : Item}
    (h : getSlot l idx = some item) : l[idx.toNat]? = some item := by
  unfold getSlot at h
  split at h
  · exact absurd h (by simp)
  · exact h

theorem eraseIdx_length_le (l : List α) (n : Nat) :
    (l.eraseIdx n).length ≤ l.length := by
  rw [List.length_eraseIdx]
  split <;> omega

theorem inv_accept (s : Session) (idx : ℤ) (res : FetchResult)
    (hwf : resWF res) (h : Inv s) : Inv (handleAccept s idx res) := by
  rcases handleAccept_cases s idx res with heq | ⟨item, hslot, heq⟩
  · rw [heq]; exact h
  · rw [heq]
    refine inv_fetch _ _ _ _ _ hwf ?_
    have hmem : item ∈ s.visible := getSlot_mem hslot
    have hid_mem : item.id ∈ itemIds s.visible := mem_itemIds.mpr ⟨item, hmem, rfl⟩
    have hgv : (itemIds s.visible)[idx.toNat]? = some item.id := by
      rw [itemIds, List.getElem?_map, getSlot_get hslot]
      rfl
    have herase : itemIds (s.visible.eraseIdx idx.toNat) =
        (itemIds s.visible).eraseIdx idx.toNat := map_eraseIdx _ _ _
    have hsub_er : ∀ a ∈ itemIds (s.visible.eraseIdx idx.toNat), a ∈ itemIds s.visible := by
      intro a ha
      rw [herase] at ha
      exact (List.eraseIdx_sublist _ _).subset ha
    refine ⟨⟨?_, ?_, ?_, ?_, ?_⟩, ?_, ?_⟩
    · show (itemIds (s.visible.eraseIdx idx.toNat)).Nodup
      rw [herase]
      exact h.vnd.sublist (List.eraseIdx_sublist _ _)
    · show (itemIds (item :: s.kept)).Nodup
      exact List.nodup_cons.mpr ⟨h.vk _ hid_mem, h.knd⟩
    · intro a ha
      exact mem_insertId.mpr (Or.inr (h.vseen a (hsub_er a ha)))
    · intro a ha
      rcases (show a = item.id ∨ a ∈ itemIds s.kept by simpa [itemIds] using ha) with rfl | ha'
      · exact mem_insertId.mpr (Or.inl rfl)
      · exact mem_insertId.mpr (Or.inr (h.kseen a ha'))
    · intro a ha hak
      have hav : a ∈ itemIds s.visible := hsub_er a ha
      rcases (show a = item.id ∨ a ∈ itemIds s.kept by simpa [itemIds] using hak) with rfl | hak'
      · rw [herase] at ha
        exact not_mem_eraseIdx_of_nodup _ _ _ h.vnd hgv ha
      · exact h.vk a hav hak'
    · show (itemIds ([] : List Item)).Nodup
      simp [itemIds]
    · intro a ha
      simp [itemIds] at ha

theorem invC_accept (s : Session) (idx : ℤ) (res : FetchResult)
    (h : InvC s) : InvC (handleAccept s idx res) := by
  rcases handleAccept_cases s idx res with heq | ⟨item, hslot, heq⟩
  · rw [heq]; exact h
  · rw [heq]
    refine invC_fetch _ _ _ _ _ ?_
    have hmem : item ∈ s.visible := getSlot_mem hslot
    have hid_mem : item.id ∈ itemIds s.visible := mem_itemIds.mpr ⟨item, hmem, rfl⟩
    have hgv : (itemIds s.visible)[idx.toNat]? = some item.id := by
      rw [itemIds, List.getElem?_map, getSlot_get hslot]
      rfl
    have herase : itemIds (s.visible.eraseIdx idx.toNat) =
        (itemIds s.visible).eraseIdx idx.toNat := map_eraseIdx _ _ _
    have hsub_er : ∀ a ∈ itemIds (s.visible.eraseIdx idx.toNat), a ∈ itemIds s.visible := by
      intro a ha
      rw [herase] at ha
      exact (List.eraseIdx_sublist _ _).subset ha
    refine ⟨?_, ?_, ?_, ?_, ?_⟩
    · show (itemIds (s.visible.eraseIdx idx.toNat)).Nodup
      rw [herase]
      exact h.vnd.sublist (List.eraseIdx_sublist _ _)
    · show (itemIds (item :: s.kept)).Nodup
      exact List.nodup_cons.mpr ⟨h.vk _ hid_mem, h.knd⟩
    · intro a ha
      exact mem_insertId.mpr (Or.inr (h.vseen a (hsub_er a ha)))
    · intro a ha
      rcases (show a = item.id ∨ a ∈ itemIds s.kept by simpa [itemIds] using ha) with rfl | ha'
      · exact mem_insertId.mpr (Or.inl rfl)
      · exact mem_insertId.mpr (Or.inr (h.kseen a ha'))
    · intro a ha hak
      have hav : a ∈ itemIds s.visible := hsub_er a ha
      rcases (show a = item.id ∨ a ∈ itemIds s.kept by simpa [itemIds] using hak) with rfl | hak'
      · rw [herase] at ha
        exact not_mem_eraseIdx_of_nodup _ _ _ h.vnd hgv ha
      · exact h.vk a hav hak'

theorem inv_reject_core (s : Session) (idx : ℤ) (item : Item)
    (hslot : getSlot s.visible idx = some item) (h : Inv s) :
    Inv { s with seenIds := insertId s.seenIds item.id,
                 visible := s.visible.eraseIdx idx.toNat } := by
  have hmem : item ∈ s.visible := getSlot_mem hslot
  have hid_seen : item.id ∈ s.seenIds := h.vseen _ (mem_itemIds.mpr ⟨item, hmem, rfl⟩)
  have herase : itemIds (s.visible.eraseIdx idx.toNat) =
      (itemIds s.visible).eraseIdx idx.toNat := map_eraseIdx _ _ _
  have hsub_er : ∀ a ∈ itemIds (s.visible.eraseIdx idx.toNat), a ∈ itemIds s.visible := by
    intro a ha
    rw [herase] at ha
    exact (List.eraseIdx_sublist _ _).subset ha
  refine ⟨⟨?_, ?_, ?_, ?_, ?_⟩, ?_, ?_⟩
  · show (itemIds (s.visible.eraseIdx idx.toNat)).Nodup
    rw [herase]
    exact h.vnd.sublist (List.eraseIdx_sublist _ _)
  · exact h.knd
  · intro a ha
    exact mem_insertId.mpr (Or.inr (h.vseen a (hsub_er a ha)))
  · intro a ha
    exact mem_insertId.mpr (Or.inr (h.kseen a ha))
  · intro a ha hak
    exact h.vk a (hsub_er a ha) hak
  · exact h.qnd
  · intro a ha hmem'
    rcases mem_insertId.mp hmem' with h' | hmem'
    · exact h.qseen a ha (by rw [h']; exact hid_seen)
    · exact h.qseen a ha hmem'

theorem inv_reject (s : Session) (idx : ℤ) (res : FetchResult)
    (hwf : resWF res) (h : Inv s) : Inv (handleReject s idx res) := by
  rcases handleReject_cases s idx res with heq | ⟨item, hslot, heq | heq⟩
  · rw [heq]; exact h
  · rw [heq]; exact inv_reject_core s idx item hslot h
  · rw [heq]
    refine inv_fetch _ _ _ _ _ hwf ?_
    refine inv_congr ?_ ?_ ?_ ?_ (inv_reject_core s idx item hslot h) <;> rfl

theorem invC_reject_core (s : Session) (idx : ℤ) (item : Item)
    (h : InvC s) :
    InvC { s with seenIds := insertId s.seenIds item.id,
                  visible := s.visible.eraseIdx idx.toNat } := by
  have herase : itemIds (s.visible.eraseIdx idx.toNat) =
      (itemIds s.visible).eraseIdx idx.toNat := map_eraseIdx _ _ _
  have hsub_er : ∀ a ∈ itemIds (s.visible.eraseIdx idx.toNat), a ∈ itemIds s.visible := by
    intro a ha
    rw [herase] at ha
    exact (List.eraseIdx_sublist _ _).subset ha
  refine ⟨?_, ?_, ?_, ?_, ?_⟩
  · show (itemIds (s.visible.eraseIdx idx.toNat)).Nodup
    rw [herase]
    exact h.vnd.sublist (List.eraseIdx_sublist _ _)
  · exact h.knd
  · intro a ha
    exact mem_insertId.mpr (Or.inr (h.vseen a (hsub_er a ha)))
  · intro a ha
    exact mem_insertId.mpr (Or.inr (h.kseen a ha))
  · intro a ha hak
    exact h.vk a (hsub_er a ha) hak

theorem invC_reject (s : Session) (idx : ℤ) (res : FetchResult)
    (h : InvC s) : InvC (handleReject s idx res) := by
  rcases handleReject_cases s idx res with heq | ⟨item, hslot, heq | heq⟩
  · rw [heq]; exact h
  · rw [heq]; exact invC_reject_core s idx item h
  · rw [heq]
    refine invC_fetch _ _ _ _ _ ?_
    refine invC_congr ?_ ?_ ?_ (invC_reject_core s idx item h) <;> rfl

/-! ### The orchestrator -/

/-- A stale generation makes the enrichment continuation a complete no-op. -/
theorem cont_stale (s : Session) (g got : Nat) (ai : AnalyzeOutcome)
    (res2 : FetchResult) (h : g ≠ s.currentRequest) :
    analyzeCont s g got ai res2 = s := by
  unfold analyzeCont
  rw [if_pos h]

theorem cont_visible (s : Session) (g got : Nat) (ai : AnalyzeOutcome)
    (res2 : FetchResult) : (analyzeCont s g got ai res2).visible = s.visible := by
  unfold analyzeCont
  split
  · rfl
  · cases ai <;> first
      | rfl
      | (dsimp only; split_ifs <;> simp [fetchImages_visible])

theorem cont_kept (s : Session) (g got : Nat) (ai : AnalyzeOutcome)
    (res2 : FetchResult) : (analyzeCont s g got ai res2).kept = s.kept := by
  unfold analyzeCont
  split
  · rfl
  · cases ai <;> first
      | rfl
      | (dsimp only; split_ifs <;> simp [fetchImages_kept])

theorem cont_seenIds (s : Session) (g got : Nat) (ai : AnalyzeOutcome)
    (res2 : FetchResult) : (analyzeCont s g got ai res2).seenIds = s.seenIds := by
  unfold analyzeCont
  split
  · rfl
  · cases ai <;> first
      | rfl
      | (dsimp only; split_ifs <;> simp [fetchImages_seenIds])

theorem inv_cont (s : Session) (g got : Nat) (ai : AnalyzeOutcome)
    (res2 : FetchResult) (hwf : resWF res2) (h : Inv s) :
    Inv (analyzeCont s g got ai res2) := by
  unfold analyzeCont
  split
  · exact h
  · cases ai with
    | networkFail => refine inv_congr ?_ ?_ ?_ ?_ h <;> rfl
    | notOk => refine inv_congr ?_ ?_ ?_ ?_ h <;> rfl
    | badJson msg => refine inv_congr ?_ ?_ ?_ ?_ h <;> rfl
    | parsed sq =>
      dsimp only
      split_ifs <;> first
        | (refine inv_congr ?_ ?_ ?_ ?_ h <;> rfl)
        | (exact inv_fetch s ((sq.getD "").trim) 1 false res2 hwf h)
        | (refine inv_congr ?_ ?_ ?_ ?_
            (inv_fetch s ((sq.getD "").trim) 1 false res2 hwf h) <;> rfl)

theorem invC_cont (s : Session) (g got : Nat) (ai : AnalyzeOutcome)
    (res2 : FetchResult) (h : InvC s) : InvC (analyzeCont s g got ai res2) :=
  invC_congr (cont_visible ..) (cont_kept ..) (cont_seenIds ..) h

theorem analyzeStart_visible (s : Session) (poem : String) (res1 : FetchResult) :
    (analyzeStart s poem res1).1.visible = [] := by
  unfold analyzeStart
  dsimp only
  rw [fetchImages_visible]

theorem analyzeStart_kept (s : Session) (poem : String) (res1 : FetchResult) :
    (analyzeStart s poem res1).1.kept = s.kept := by
  unfold analyzeStart
  dsimp only
  rw [fetchImages_kept]

theorem analyzeStart_seenIds (s : Session) (poem : String) (res1 : FetchResult) :
    (analyzeStart s poem res1).1.seenIds = s.seenIds := by
  unfold analyzeStart
  dsimp only
  rw [fetchImages_seenIds]

theorem analyzeStart_currentRequest (s : Session) (poem : String) (res1 : FetchResult) :
    (analyzeStart s poem res1).1.currentRequest = s.currentRequest + 1 := by
  unfold analyzeStart
  dsimp only
  rw [fetchImages_currentRequest]

theorem inv_start (s : Session) (poem : String) (res1 : FetchResult)
    (hwf : resWF res1) (h : Inv s) : Inv (analyzeStart s poem res1).1 := by
  unfold analyzeStart
  dsimp only
  refine inv_fetch _ _ _ _ _ hwf ?_
  refine ⟨⟨?_, ?_, ?_, ?_, ?_⟩, ?_, ?_⟩
  · show (itemIds ([] : List Item)).Nodup
    simp [itemIds]
  · exact h.knd
  · intro a ha
    simp [itemIds] at ha
  · exact h.kseen
  · intro a ha
    simp [itemIds] at ha
  · show (itemIds ([] : List Item)).Nodup
    simp [itemIds]
  · intro a ha
    simp [itemIds] at ha

theorem invC_start (s : Session) (poem : String) (res1 : FetchResult)
    (h : InvC s) : InvC (analyzeStart s poem res1).1 := by
  unfold analyzeStart
  dsimp only
  refine invC_fetch _ _ _ _ _ ?_
  refine ⟨?_, ?_, ?_, ?_, ?_⟩
  · show (itemIds ([] : List Item)).Nodup
    simp [itemIds]
  · exact h.knd
  · intro a ha
    simp [itemIds] at ha
  · exact h.kseen
  · intro a ha
    simp [itemIds] at ha

theorem inv_analyze (s : Session) (poem : String) (res1 : FetchResult)
    (ai : AnalyzeOutcome) (res2 : FetchResult)
    (hwf1 : resWF res1) (hwf2 : resWF res2) (h : Inv s) :
    Inv (analyzePoemAndSearch s poem res1 ai res2) := by
  unfold analyzePoemAndSearch
  exact inv_cont _ _ _ _ _ hwf2 (inv_start _ _ _ hwf1 h)

theorem invC_analyze (s : Session) (poem : String) (res1 : FetchResult)
    (ai : AnalyzeOutcome) (res2 : FetchResult) (h : InvC s) :
    InvC (analyzePoemAndSearch s poem res1 ai res2) := by
  unfold analyzePoemAndSearch
  exact invC_cont _ _ _ _ _ (invC_start _ _ _ h)

theorem analyze_visible (s : Session) (poem : String) (res1 : FetchResult)
    (ai : AnalyzeOutcome) (res2 : FetchResult) :
    (analyzePoemAndSearch s poem res1 ai res2).visible = [] := by
  unfold analyzePoemAndSearch
  rw [cont_visible, analyzeStart_visible]

theorem analyze_seenIds (s : Session) (poem : String) (res1 : FetchResult)
    (ai : AnalyzeOutcome) (res2 : FetchResult) :
    (analyzePoemAndSearch s poem res1 ai res2).seenIds = s.seenIds := by
  unfold analyzePoemAndSearch
  rw [cont_seenIds, analyzeStart_seenIds]

/-! ### Invariants along every run -/

theorem inv_step (s : Session) (op : Op) (hwf : opWF op) (h : Inv s) :
    Inv (step s op) := by
  cases op with
  | fetch q p ap res => exact inv_fetch _ _ _ _ _ hwf h
  | accept idx res => exact inv_accept _ _ _ hwf h
  | reject idx res => exact inv_reject _ _ _ hwf h
  | fill => exact inv_fillSlots _ h
  | analyze poem r1 ai r2 => exact inv_analyze _ _ _ _ _ hwf.1 hwf.2 h

theorem invC_step (s : Session) (op : Op) (h : InvC s) : InvC (step s op) := by
  cases op with
  | fetch q p ap res => exact invC_fetch _ _ _ _ _ h
  | accept idx res => exact invC_accept _ _ _ h
  | reject idx res => exact invC_reject _ _ _ h
  | fill => exact invC_fillSlots _ h
  | analyze poem r1 ai r2 => exact invC_analyze _ _ _ _ _ h

theorem inv_foldl : ∀ (ops : List Op) (s : Session), Inv s →
    (∀ op ∈ ops, opWF op) → Inv (ops.foldl step s) := by
  intro ops
  induction ops with
  | nil => intro s h _; exact h
  | cons o os ih =>
    intro s h hwf
    exact ih _ (inv_step _ _ (hwf o (by simp)) h)
      (fun op hop => hwf op (List.mem_cons_of_mem _ hop))

theorem invC_foldl : ∀ (ops : List Op) (s : Session), InvC s →
    InvC (ops.foldl step s) := by
  intro ops
  induction ops with
  | nil => intro s h; exact h
  | cons o os ih => intro s h; exact ih _ (invC_step _ _ h)

theorem inv_run (ops : List Op) (hwf : ∀ op ∈ ops, opWF op) : Inv (run ops) :=
  inv_foldl ops initialSession initial_inv hwf

theorem invC_run (ops : List Op) : InvC (run ops) :=
  invC_foldl ops initialSession initial_inv.toInvC

/-! ### Per-step observations: seen-set monotonicity, window growth, bound -/

theorem itemIds_eraseIdx_subset (l : List Item) (n : Nat) :
    ∀ a ∈ itemIds (l.eraseIdx n), a ∈ itemIds l := by
  intro a ha
  have herase : itemIds (l.eraseIdx n) = (itemIds l).eraseIdx n := map_eraseIdx _ _ _
  rw [herase] at ha
  exact (List.eraseIdx_sublist _ _).subset ha

theorem seen_step (s : Session) (op : Op) :
    ∀ a ∈ s.seenIds, a ∈ (step s op).seenIds := by
  intro a ha
  cases op with
  | fetch q p ap res =>
    show a ∈ ((fetchImages s q p ap res).1).seenIds
    rw [fetchImages_seenIds]
    exact ha
  | accept idx res =>
    show a ∈ (handleAccept s idx res).seenIds
    rcases handleAccept_cases s idx res with heq | ⟨item, _, heq⟩
    · rw [heq]; exact ha
    · rw [heq, fetchImages_seenIds]
      exact mem_insertId.mpr (Or.inr ha)
  | reject idx res =>
    show a ∈ (handleReject s idx res).seenIds
    rcases handleReject_cases s idx res with heq | ⟨item, _, heq | heq⟩
    · rw [heq]; exact ha
    · rw [heq]
      exact mem_insertId.mpr (Or.inr ha)
    · rw [heq, fetchImages_seenIds]
      exact mem_insertId.mpr (Or.inr ha)
  | fill =>
    show a ∈ (fillSlots s).seenIds
    rcases fillSlots_cases s with heq | ⟨p, q₁, q', _, _, _, _, _, heq⟩
    · rw [heq]; exact ha
    · rw [heq]
      exact (mem_foldl_insertId _ _ _).mpr (Or.inl ha)
  | analyze poem r1 ai r2 =>
    show a ∈ (analyzePoemAndSearch s poem r1 ai r2).seenIds
    rw [analyze_seenIds]
    exact ha

theorem visible_new_step (s : Session) (op : Op) :
    ∀ a ∈ itemIds (step s op).visible, a ∈ itemIds s.visible ∨ a ∉ s.seenIds := by
  intro a ha
  cases op with
  | fetch q p ap res =>
    left
    rwa [show (step s (Op.fetch q p ap res)).visible = s.visible from
      fetchImages_visible s q p ap res] at ha
  | accept idx res =>
    rcases handleAccept_cases s idx res with heq | ⟨item, _, heq⟩
    · left
      rwa [show (step s (Op.accept idx res)).visible = s.visible by
        show (handleAccept s idx res).visible = s.visible
        rw [heq]] at ha
    · left
      have hv : (step s (Op.accept idx res)).visible = s.visible.eraseIdx idx.toNat := by
        show (handleAccept s idx res).visible = _
        rw [heq, fetchImages_visible]
      rw [hv] at ha
      exact itemIds_eraseIdx_subset _ _ a ha
  | reject idx res =>
    rcases handleReject_cases s idx res with heq | ⟨item, _, heq | heq⟩
    · left
      rwa [show (step s (Op.reject idx res)).visible = s.visible by
        show (handleReject s idx res).visible = s.visible
        rw [heq]] at ha
    · left
      have hv : (step s (Op.reject idx res)).visible = s.visible.eraseIdx idx.toNat := by
        show (handleReject s idx res).visible = _
        rw [heq]
      rw [hv] at ha
      exact itemIds_eraseIdx_subset _ _ a ha
    · left
      have hv : (step s (Op.reject idx res)).visible = s.visible.eraseIdx idx.toNat := by
        show (handleReject s idx res).visible = _
        rw [heq, fetchImages_visible]
      rw [hv] at ha
      exact itemIds_eraseIdx_subset _ _ a ha
  | fill =>
    rcases fillSlots_cases s with heq | ⟨p, q₁, q', _, _, hcond, _, _, heq⟩
    · left
      rwa [show (step s Op.fill).visible = s.visible by
        show (fillSlots s).visible = s.visible
        rw [heq]] at ha
    · have hv : (step s Op.fill).visible = s.visible ++ p := by
        show (fillSlots s).visible = _
        rw [heq]
      rw [hv, itemIds_append, List.mem_append] at ha
      rcases ha with ha | ha
      · exact Or.inl ha
      · right
        rw [mem_itemIds] at ha
        obtain ⟨it, hit, rfl⟩ := ha
        exact (hcond it hit).1
  | analyze poem r1 ai r2 =>
    rw [show (step s (Op.analyze poem r1 ai r2)).visible = [] from
      analyze_visible s poem r1 ai r2] at ha
    simp [itemIds] at ha

theorem visible_len_step (s : Session) (op : Op)
    (h : s.visible.length ≤ SLOT_COUNT) :
    (step s op).visible.length ≤ SLOT_COUNT := by
  cases op with
  | fetch q p ap res =>
    rw [show (step s (Op.fetch q p ap res)).visible = s.visible from
      fetchImages_visible s q p ap res]
    exact h
  | accept idx res =>
    rcases handleAccept_cases s idx res with heq | ⟨item, _, heq⟩
    · rw [show (step s (Op.accept idx res)).visible = s.visible by
        show (handleAccept s idx res).visible = s.visible
        rw [heq]]
      exact h
    · rw [show (step s (Op.accept idx res)).visible = s.visible.eraseIdx idx.toNat by
        show (handleAccept s idx res).visible = _
        rw [heq, fetchImages_visible]]
      exact le_trans (eraseIdx_length_le _ _) h
  | reject idx res =>
    rcases handleReject_cases s idx res with heq | ⟨item, _, heq | heq⟩
    · rw [show (step s (Op.reject idx res)).visible = s.visible by
        show (handleReject s idx res).visible = s.visible
        rw [heq]]
      exact h
    · rw [show (step s (Op.reject idx res)).visible = s.visible.eraseIdx idx.toNat by
        show (handleReject s idx res).visible = _
        rw [heq]]
      exact le_trans (eraseIdx_length_le _ _) h
    · rw [show (step s (Op.reject idx res)).visible = s.visible.eraseIdx idx.toNat by
        show (handleReject s idx res).visible = _
        rw [heq, fetchImages_visible]]
      exact le_trans (eraseIdx_length_le _ _) h
  | fill =>
    rcases fillSlots_cases s with heq | ⟨p, q₁, q', _, _, _, _, hlen, heq⟩
    · rw [show (step s Op.fill).visible = s.visible by
        show (fillSlots s).visible = s.visible
        rw [heq]]
      exact h
    · rw [show (step s Op.fill).visible = s.visible ++ p by
        show (fillSlots s).visible = _
        rw [heq]]
      exact hlen
  | analyze poem r1 ai r2 =>
    rw [show (step s (Op.analyze poem r1 ai r2)).visible = [] from
      analyze_visible s poem r1 ai r2]
    simp [SLOT_COUNT]

theorem visible_len_foldl : ∀ (ops : List Op) (s : Session),
    s.visible.length ≤ SLOT_COUNT →
    ((ops.foldl step s).visible).length ≤ SLOT_COUNT := by
  intro ops
  induction ops with
  | nil => intro s h; exact h
  | cons o os ih => intro s h; exact ih _ (visible_len_step _ _ h)

/-! ### Score-table lemmas for the color preseed -/

theorem find?_bump_map (sc : ScoreTable) (w : String) (inc : ℚ) :
    (sc.map (fun p => if p.1 == w then (p.1, p.2 + inc) else p)).find?
        (fun p => p.1 == w) =
      (sc.find? (fun p => p.1 == w)).map (fun p => (p.1, p.2 + inc)) := by
  induction sc with
  | nil => rfl
  | cons p t ih =>
    rw [List.map_cons]
    by_cases hp : (p.1 == w) = true
    · rw [if_pos hp, List.find?_cons, List.find?_cons]
      simp only [hp]
      rfl
    · have hp' : (p.1 == w) = false := by
        rwa [Bool.not_eq_true] at hp
      rw [if_neg hp, List.find?_cons, List.find?_cons]
      simp only [hp']
      exact ih

theorem find?_bump_map_ne (sc : ScoreTable) (w v : String) (inc : ℚ)
    (hvw : v ≠ w) :
    (sc.map (fun p => if p.1 == w then (p.1, p.2 + inc) else p)).find?
        (fun p => p.1 == v) =
      sc.find? (fun p => p.1 == v) := by
  induction sc with
  | nil => rfl
  | cons p t ih =>
    rw [List.map_cons]
    by_cases hw : (p.1 == w) = true
    · have hv : (p.1 == v) = false := by
        rw [beq_iff_eq] at hw
        rw [beq_eq_false_iff_ne, hw]
        exact fun hh => hvw hh.symm
      rw [if_pos hw, List.find?_cons, List.find?_cons]
      simp only [hv]
      exact ih
    · rw [if_neg hw, List.find?_cons, List.find?_cons]
      by_cases hv : (p.1 == v) = true
      · simp only [hv]
      · have hv' : (p.1 == v) = false := by
          rwa [Bool.not_eq_true] at hv
        simp only [hv']
        exact ih

theorem lookupScore_bump_self (sc : ScoreTable) (w : String) (inc : ℚ) :
    lookupScore (bump sc w inc) w = lookupScore sc w + inc := by
  unfold bump
  split
  · next hany =>
    unfold lookupScore getEntry
    rw [find?_bump_map]
    obtain ⟨x, hx, hpx⟩ := List.any_eq_true.mp hany
    cases hf : sc.find? (fun p => p.1 == w) with
    | none =>
      rw [List.find?_eq_none] at hf
      exact absurd hpx (hf x hx)
    | some q => simp
  · next hany =>
    have hnone : sc.find? (fun p => p.1 == w) = none := by
      rw [List.find?_eq_none]
      intro x hx hpx
      exact hany (List.any_eq_true.mpr ⟨x, hx, hpx⟩)
    unfold lookupScore getEntry
    rw [List.find?_append, hnone]
    simp

theorem getEntry_bump_ne (sc : ScoreTable) (w v : String) (inc : ℚ)
    (hvw : v ≠ w) : getEntry (bump sc w inc) v = getEntry sc v := by
  unfold bump
  split
  · unfold getEntry
    rw [find?_bump_map_ne sc w v inc hvw]
  · unfold getEntry
    rw [List.find?_append]
    have hlast : ([(w, inc)] : ScoreTable).find? (fun p => p.1 == v) = none := by
      have hwv : (w == v) = false := beq_eq_false_iff_ne.mpr (fun hh => hvw hh.symm)
      simp [List.find?_cons, hwv]
    rw [hlast]
    simp

theorem preseed_lookup (l : List String) : ∀ (sc : ScoreTable) (w : String),
    lookupScore
        (l.foldl (fun sc t => if COLOR_WORDS.contains t then bump sc t (6/10) else sc) sc) w =
      lookupScore sc w +
        (if COLOR_WORDS.contains w then (6/10 : ℚ) * (l.count w) else 0) := by
  induction l with
  | nil =>
    intro sc w
    simp only [List.foldl_nil, List.count_nil, Nat.cast_zero, mul_zero, ite_self, add_zero]
  | cons t ts ih =>
    intro sc w
    rw [List.foldl_cons, ih]
    by_cases hct : COLOR_WORDS.contains t = true
    · rw [if_pos hct]
      by_cases htw : t = w
      · subst htw
        rw [lookupScore_bump_self, if_pos hct, if_pos hct, List.count_cons_self]
        push_cast
        ring
      · have hbump : lookupScore (bump sc t (6/10)) w = lookupScore sc w := by
          unfold lookupScore
          rw [getEntry_bump_ne sc t w (6/10) (fun hh => htw hh.symm)]
        rw [hbump, List.count_cons_of_ne (fun hh => htw hh.symm)]
    · rw [if_neg hct]
      by_cases htw : t = w
      · subst htw
        rw [if_neg hct, if_neg hct]
      · rw [List.count_cons_of_ne (fun hh => htw hh.symm)]

theorem preseed_getEntry (l : List String) : ∀ (sc : ScoreTable) (w : String),
    COLOR_WORDS.contains w = false →
    getEntry
        (l.foldl (fun sc t => if COLOR_WORDS.contains t then bump sc t (6/10) else sc) sc) w =
      getEntry sc w := by
  induction l with
  | nil => intro sc w _; rfl
  | cons t ts ih =>
    intro sc w hw
    rw [List.foldl_cons]
    by_cases hct : COLOR_WORDS.contains t = true
    · rw [if_pos hct, ih _ _ hw, getEntry_bump_ne sc t w (6/10)
        (fun hh => by rw [hh] at hw; rw [hw] at hct; exact Bool.false_ne_true hct)]
    · rw [if_neg hct, ih _ _ hw]

/-! ### The claims -/

/-- Claim C1 (dedup invariant): for every well-formed sequence of fetch,
accept, reject and slot-fill operations from the initial session (provider
responses carry pairwise-distinct ids, per the spec's provider boundary),
no id appears in more than one of the queue, the visible window and the
kept list at once, no id in the seen set sits in the queue, and an id in
the seen set is never added to the queue or the window by a further
well-formed operation. -/
theorem c1_dedup_invariant (ops : List Op) (hwf : ∀ op ∈ ops, opWF op) :
    ((∀ a, ¬(a ∈ itemIds (run ops).itemsQueue ∧ a ∈ itemIds (run ops).visible)) ∧
     (∀ a, ¬(a ∈ itemIds (run ops).itemsQueue ∧ a ∈ itemIds (run ops).kept)) ∧
     (∀ a, ¬(a ∈ itemIds (run ops).visible ∧ a ∈ itemIds (run ops).kept)) ∧
     (∀ a ∈ (run ops).seenIds, a ∉ itemIds (run ops).itemsQueue)) ∧
    (∀ op, opWF op → ∀ a ∈ (run ops).seenIds,
      (a ∈ itemIds (step (run ops) op).itemsQueue →
        a ∈ itemIds (run ops).itemsQueue) ∧
      (a ∈ itemIds (step (run ops) op).visible →
        a ∈ itemIds (run ops).visible)) := by
  have h := inv_run ops hwf
  refine ⟨⟨?_, ?_, ?_, ?_⟩, ?_⟩
  · rintro a ⟨hq, hv⟩
    exact h.qseen a hq (h.vseen a hv)
  · rintro a ⟨hq, hk⟩
    exact h.qseen a hq (h.kseen a hk)
  · rintro a ⟨hv, hk⟩
    exact h.vk a hv hk
  · intro a hseen hq
    exact h.qseen a hq hseen
  · intro op hop a hseen
    constructor
    · intro hq'
      have h' := inv_step _ op hop h
      exact absurd (seen_step _ op a hseen) (h'.qseen a hq')
    · intro hv'
      rcases visible_new_step _ op a hv' with hin | hnot
      · exact hin
      · exact absurd hseen hnot

/-- Witness for C1 at the concrete operation sequence `c1ops`. -/
theorem c1_dedup_invariant_witness :
    (∀ op ∈ c1ops, opWF op) ∧
    (((∀ a, ¬(a ∈ itemIds (run c1ops).itemsQueue ∧ a ∈ itemIds (run c1ops).visible)) ∧
      (∀ a, ¬(a ∈ itemIds (run c1ops).itemsQueue ∧ a ∈ itemIds (run c1ops).kept)) ∧
      (∀ a, ¬(a ∈ itemIds (run c1ops).visible ∧ a ∈ itemIds (run c1ops).kept)) ∧
      (∀ a ∈ (run c1ops).seenIds, a ∉ itemIds (run c1ops).itemsQueue)) ∧
     (∀ op, opWF op → ∀ a ∈ (run c1ops).seenIds,
       (a ∈ itemIds (step (run c1ops) op).itemsQueue →
         a ∈ itemIds (run c1ops).itemsQueue) ∧
       (a ∈ itemIds (step (run c1ops) op).visible →
         a ∈ itemIds (run c1ops).visible))) :=
  ⟨by decide, c1_dedup_invariant c1ops (by decide)⟩

/-- Claim C2 (staleness guard): once the generation counter has moved past
the generation `g1` captured by a run of `analyzePoemAndSearch`, the
arrival of that run's enrichment outcome — whatever it is — leaves the
session completely unchanged. -/
theorem c2_staleness_guard (s : Session) (g1 got : Nat) (ai : AnalyzeOutcome)
    (res2 : FetchResult) (h : g1 < s.currentRequest) :
    analyzeCont s g1 got ai res2 = s :=
  cont_stale s g1 got ai res2 (Nat.ne_of_lt h)

/-- Witness for C2: generation 1 arriving while the counter is at 2. -/
theorem c2_staleness_guard_witness :
    1 < staleSession.currentRequest ∧
    analyzeCont staleSession 1 0 AnalyzeOutcome.networkFail
      (FetchResult.failure "e") = staleSession :=
  ⟨by decide, c2_staleness_guard staleSession 1 0 AnalyzeOutcome.networkFail
    (FetchResult.failure "e") (by decide)⟩

/-- Claim C3, counterexample: in scenario B (initial session, kept empty,
accepted item titled "Dark Horizon Silhouette"), the refined keyword list
DOES contain "lonely" — the claim's exclusion clause fails: `topKeywords`
keeps up to 12 keywords and only six candidates exist, so "lonely" is
outranked but not dropped. -/
theorem c3_scenarioB_counterexample :
    "lonely" ∈ topKeywords (refineScores initialSession itemScenarioB) 12 := by
  set_option maxRecDepth 1000000 in with_unfolding_all decide

/-- Claim C3 as amended: the scenario-B refined keyword list is exactly
horizon, dark, silhouette, lonely, single, figure — it includes "dark",
"horizon" and "silhouette", each ranked above "lonely", and "lonely" stays
in the list (outranked, not excluded). -/
theorem c3_scenarioB_amended :
    topKeywords (refineScores initialSession itemScenarioB) 12 =
      ["horizon", "dark", "silhouette", "lonely", "single", "figure"] ∧
    refineQueryWith initialSession itemScenarioB =
      "horizon dark silhouette lonely single figure" := by
  set_option maxRecDepth 1000000 in with_unfolding_all decide

/-- Claim C4 (window bound): after any operation sequence the visible
window holds at most SLOT_COUNT = 3 items, and `fillSlots` never pushes a
window that respects the bound past it. -/
theorem c4_window_bound :
    (∀ ops : List Op, (run ops).visible.length ≤ SLOT_COUNT) ∧
    (∀ s : Session, s.visible.length ≤ SLOT_COUNT →
      (fillSlots s).visible.length ≤ SLOT_COUNT) := by
  constructor
  · intro ops
    exact visible_len_foldl ops initialSession (by simp [initialSession, SLOT_COUNT])
  · intro s h
    exact visible_len_step s Op.fill h

/-- Witness for C4 at the initial session. -/
theorem c4_window_bound_witness :
    initialSession.visible.length ≤ SLOT_COUNT ∧
    (fillSlots initialSession).visible.length ≤ SLOT_COUNT :=
  ⟨by decide, c4_window_bound.2 initialSession (by decide)⟩

/-- Claim C5, counterexample: an OK enrichment response whose body fails
JSON parsing is NOT absorbed silently — `aiResp.json()` throws into the
outer catch, which sets the user-facing error to the parse failure
message instead of leaving it null. -/
theorem c5_badjson_counterexample :
    (analyzePoemAndSearch initialSession "lonely poem" (FetchResult.success [])
        (AnalyzeOutcome.badJson "SyntaxError: Unexpected token")
        (FetchResult.failure "unused")).error =
      some "SyntaxError: Unexpected token" := by
  decide

/-- Claim C5 as amended: a non-OK enrichment response and an
aborted / failed enrichment request are handled identically — the
optimistic fetch results stand untouched and only `loading` is cleared
(no error is set beyond what the optimistic phase left) — while an OK
response with an unparseable body keeps the optimistic results and clears
`loading` but sets the error state to the parse failure message. -/
theorem c5_enrichment_failure_amended (s : Session) (poem : String)
    (res1 res2 : FetchResult) (msg : String) :
    analyzePoemAndSearch s poem res1 AnalyzeOutcome.notOk res2 =
      { (analyzeStart s poem res1).1 with loading := false } ∧
    analyzePoemAndSearch s poem res1 AnalyzeOutcome.networkFail res2 =
      { (analyzeStart s poem res1).1 with loading := false } ∧
    analyzePoemAndSearch s poem res1 (AnalyzeOutcome.badJson msg) res2 =
      { (analyzeStart s poem res1).1 with loading := false, error := some msg } := by
  have hg : (analyzeStart s poem res1).2.1 =
      (analyzeStart s poem res1).1.currentRequest := by
    rw [analyzeStart_currentRequest]
    rfl
  refine ⟨?_, ?_, ?_⟩ <;>
    · unfold analyzePoemAndSearch
      dsimp only
      unfold analyzeCont
      rw [if_neg (fun hne => hne hg)]

/-- Claim C6, counterexample: with `itemX` already in the queue and not in
the seen set, an append-mode fetch returning `[itemX]` reports 1 while
adding nothing — the returned number is not the count of items actually
added. -/
theorem c6_enqueue_count_counterexample :
    (fetchImages sessionWithQueue "q" 1 true (FetchResult.success [itemX])).2 = 1 ∧
    (fetchImages sessionWithQueue "q" 1 true (FetchResult.success [itemX])).1.itemsQueue =
      sessionWithQueue.itemsQueue := by
  decide

/-- Claim C6 as amended: a completed, unguarded successful `fetchImages`
returns the number of fetched items that survive the seen-set filter (the
fresh count) — which can exceed the number actually added to the queue
when some of those ids already sit in the queue. -/
theorem c6_enqueue_count_amended (s : Session) (q : String) (p : Nat)
    (ap : Bool) (items : List Item) (h : s.fetching = false) :
    (fetchImages s q p ap (FetchResult.success items)).2 =
      (items.filter (fun it => !(s.seenIds.contains it.id))).length := by
  simp [fetchImages, h]

/-- Witness for the amended C6 at the initial session. -/
theorem c6_enqueue_count_amended_witness :
    initialSession.fetching = false ∧
    (fetchImages initialSession "q" 1 false (FetchResult.success [itemX])).2 =
      (([itemX] : List Item).filter
        (fun it => !(initialSession.seenIds.contains it.id))).length :=
  ⟨by decide, c6_enqueue_count_amended initialSession "q" 1 false [itemX] (by decide)⟩

/-- Claim C7 (fallback non-emptiness): when the active query is non-empty,
`refineQueryWith` never returns an empty string, and when the keyword
pipeline yields nothing it returns exactly the current active query. -/
theorem c7_fallback_nonempty (s : Session) (item : Item)
    (h : s.activeQuery ≠ "") :
    refineQueryWith s item ≠ "" ∧
    (topKeywords (refineScores s item) 12 = [] →
      refineQueryWith s item = s.activeQuery) := by
  constructor
  · unfold refineQueryWith
    dsimp only
    split
    · exact h
    · next hne => exact hne
  · intro hk
    unfold refineQueryWith
    dsimp only
    rw [hk]
    rfl

/-- Witness for C7 at the initial session and `itemX`. -/
theorem c7_fallback_nonempty_witness :
    initialSession.activeQuery ≠ "" ∧
    (refineQueryWith initialSession itemX ≠ "" ∧
     (topKeywords (refineScores initialSession itemX) 12 = [] →
       refineQueryWith initialSession itemX = initialSession.activeQuery)) :=
  ⟨by decide, c7_fallback_nonempty initialSession itemX (by decide)⟩

/-- Claim C8 (implicit, per-occurrence color preseed): for every score
table, text and key, `preseedColorHintsFromUserText` leaves the entry at a
non-color key untouched and adds exactly 0.6 per occurrence of a color
word among the tokens of the text — k occurrences add k × 0.6, with no
length or stopword filtering. -/
theorem c8_preseed_per_occurrence (sc : ScoreTable) (text w : String) :
    lookupScore (preseedColorHintsFromUserText sc text) w =
      lookupScore sc w +
        (if COLOR_WORDS.contains w then (6/10 : ℚ) * ((tokenize text).count w) else 0) ∧
    (COLOR_WORDS.contains w = false →
      getEntry (preseedColorHintsFromUserText sc text) w = getEntry sc w) := by
  constructor
  · exact preseed_lookup (tokenize text) sc w
  · intro hw
    exact preseed_getEntry (tokenize text) sc w hw

/-- Witness for C8 at a concrete table and text, with a non-color key. -/
theorem c8_preseed_per_occurrence_witness :
    COLOR_WORDS.contains "rain" = false ∧
    getEntry (preseedColorHintsFromUserText [("x", 1)] "golden rain") "rain" =
      getEntry [("x", 1)] "rain" :=
  ⟨by decide, (c8_preseed_per_occurrence [("x", 1)] "golden rain" "rain").2 (by decide)⟩

/-- Claim C9 (implicit, out-of-range slot actions): when the index points
at no visible slot (negative, or at least the window length), both
`handleAccept` and `handleReject` return the session unchanged — no state
field moves and, the returned session being untouched, no fetch outcome is
consumed. -/
theorem c9_out_of_range_noop (s : Session) (idx : ℤ) (res1 res2 : FetchResult)
    (h : idx < 0 ∨ (s.visible.length : ℤ) ≤ idx) :
    handleAccept s idx res1 = s ∧ handleReject s idx res2 = s := by
  have hslot : getSlot s.visible idx = none := by
    unfold getSlot
    rcases h with h | h
    · rw [if_pos h]
    · have h0 : ¬(idx < 0) := by omega
      rw [if_neg h0]
      apply List.getElem?_eq_none
      omega
  constructor
  · unfold handleAccept
    rw [hslot]
  · unfold handleReject
    rw [hslot]

/-- Witness for C9: slot 5 of the (empty-window) initial session. -/
theorem c9_out_of_range_noop_witness :
    ((5 : ℤ) < 0 ∨ (initialSession.visible.length : ℤ) ≤ 5) ∧
    (handleAccept initialSession 5 (FetchResult.failure "a") = initialSession ∧
     handleReject initialSession 5 (FetchResult.failure "r") = initialSession) :=
  ⟨by decide, c9_out_of_range_noop initialSession 5 (FetchResult.failure "a")
    (FetchResult.failure "r") (by decide)⟩

/-- Claim C10 (implicit, within-collection distinctness): after every
operation sequence, the visible window and the kept list each hold
pairwise-distinct ids — with no assumption on provider responses. -/
theorem c10_within_collection_distinct (ops : List Op) :
    (itemIds (run ops).visible).Nodup ∧ (itemIds (run ops).kept).Nodup :=
  ⟨(invC_run ops).vnd, (invC_run ops).knd⟩

end Moodboard